import Mathlib

/-!
Verification development for the redcent-tui menu application
(src/main.rs, src/scripts.rs).

The Rust program keeps its menu tree in `Rc<RefCell<MenuNode>>` cells and
its navigation path as a vector of shared references into that tree.  The
shallow embedding below replaces shared mutable references by explicit
paths: a node of the tree is addressed by the list of child indices
leading to it from the root, the navigation path becomes a list of such
paths (the Rust `nav_path` always has the root as its first element, here
the empty path `[]`), and the leaf payload (`script_fn: fn() -> &'static
str` in Rust) becomes the script text itself, since every such function
returns a string constant.  The fallible file write in the Saving state is
modelled by an explicit `WriteOutcome` oracle passed to the step function.
-/

/-- MenuNode from src/main.rs: a selectable item or a sub-menu. -/
inductive MenuNode where
  | Item (name : String) (script_fn : String) (selected : Bool)
  | Menu (name : String) (children : List MenuNode)

/-- OsDistribution from src/main.rs. -/
inductive OsDistribution where
  | Rhel
  | Centos
  | Unknown
deriving DecidableEq

/-- AppState from src/main.rs (Running = Browsing, Finished = Reviewing). -/
inductive AppState where
  | Running
  | Finished
  | Saving
deriving DecidableEq

/-- ActionAfterExit from src/main.rs. -/
inductive ActionAfterExit where
  | Quit
  | RunScript (script : String)
deriving DecidableEq

/-- Key events the run_app loop distinguishes (crossterm KeyCode). -/
inductive KeyCode where
  | Char (c : Char)
  | Down
  | Up
  | Right
  | Left
  | Enter
  | Backspace
  | Esc
  | Other
deriving DecidableEq

/-- Outcome of the external `fs::write` call in the Saving state, passed
as an oracle to the step function; `Err` carries the error display text. -/
inductive WriteOutcome where
  | Ok
  | Err (msg : String)
deriving DecidableEq

mutual
/-- Node lookup along a path of child indices (the embedding of following
an `Rc` reference into the tree). -/
def getNode : MenuNode → List Nat → Option MenuNode
  | n, [] => some n
  | MenuNode.Item _ _ _, _ :: _ => none
  | MenuNode.Menu _ cs, i :: rest => getNodeList cs i rest
def getNodeList : List MenuNode → Nat → List Nat → Option MenuNode
  | [], _, _ => none
  | c :: _, 0, rest => getNode c rest
  | _ :: cs, i + 1, rest => getNodeList cs i rest
end

mutual
/-- Toggling the `selected` flag of the node a path addresses (the
embedding of `*selected = !*selected` through a shared reference); a path
that does not address an Item leaves the tree unchanged. -/
def toggleAt : MenuNode → List Nat → MenuNode
  | MenuNode.Item n s sel, [] => MenuNode.Item n s (!sel)
  | MenuNode.Item n s sel, _ :: _ => MenuNode.Item n s sel
  | MenuNode.Menu n cs, [] => MenuNode.Menu n cs
  | MenuNode.Menu n cs, i :: rest => MenuNode.Menu n (toggleAtList cs i rest)
def toggleAtList : List MenuNode → Nat → List Nat → List MenuNode
  | [], _, _ => []
  | c :: cs, 0, rest => toggleAt c rest :: cs
  | c :: cs, i + 1, rest => c :: toggleAtList cs i rest
end

/-- Paths of the immediate children of a menu: `base ++ [0], ...,
base ++ [k-1]`. -/
def childIndexPaths (base : List Nat) (k : Nat) : List (List Nat) :=
  (List.range k).map (fun i => base ++ [i])

/-- Root-view flattening from App::visible_nodes (src/main.rs lines
176-188): push each top-level child, and when it is a Menu push its
immediate children right after it.  `k` is the index of the first child
of `cs` within its parent. -/
def rootFlatten (base : List Nat) (cs : List MenuNode) (k : Nat) : List (List Nat) :=
  match cs with
  | [] => []
  | c :: rest =>
    (base ++ [k]) ::
      ((match c with
        | MenuNode.Menu _ sub => (List.range sub.length).map (fun j => base ++ [k, j])
        | MenuNode.Item _ _ _ => []) ++ rootFlatten base rest (k + 1))

/-- App::visible_nodes from src/main.rs: at the root (navigation path of
length 1) flatten one level deep; inside a submenu show only the terminal
menu's immediate children.  Nodes are returned as paths from the root. -/
def visible_nodes (tree : MenuNode) (nav : List (List Nat)) : List (List Nat) :=
  if nav.length = 1 then
    match getNode tree (nav.getLastD []) with
    | some (MenuNode.Menu _ children) => rootFlatten (nav.getLastD []) children 0
    | _ => []
  else
    match getNode tree (nav.getLastD []) with
    | some (MenuNode.Menu _ children) => childIndexPaths (nav.getLastD []) children.length
    | _ => []

/-- Visible view as nodes: each visible path resolved in the tree. -/
def viewNodes (tree : MenuNode) (nav : List (List Nat)) : List MenuNode :=
  (visible_nodes tree nav).filterMap (fun p => getNode tree p)

mutual
/-- MenuNode::get_selected_scripts from src/main.rs, with the `&mut Vec`
accumulator made explicit: pushes the payload of every selected Item in
traversal order onto `acc`. -/
def get_selected_scripts : MenuNode → List String → List String
  | MenuNode.Item _ s sel, acc => if sel then acc ++ [s] else acc
  | MenuNode.Menu _ cs, acc => get_selected_scripts_list cs acc
def get_selected_scripts_list : List MenuNode → List String → List String
  | [], acc => acc
  | c :: cs, acc => get_selected_scripts_list cs (get_selected_scripts c acc)
end

mutual
/-- Modelled from the spec (§4.1 `visit_selected_leaves`): depth-first
pre-order traversal yielding the payload of every selected Item in
catalogue order. -/
def visit_selected_leaves : MenuNode → List String
  | MenuNode.Item _ s sel => if sel then [s] else []
  | MenuNode.Menu _ cs => visit_selected_leaves_list cs
def visit_selected_leaves_list : List MenuNode → List String
  | [] => []
  | c :: cs => visit_selected_leaves c ++ visit_selected_leaves_list cs
end

mutual
/-- Whether some Item of the tree has its `selected` flag set. -/
def existsSelected : MenuNode → Bool
  | MenuNode.Item _ _ sel => sel
  | MenuNode.Menu _ cs => existsSelectedList cs
def existsSelectedList : List MenuNode → Bool
  | [] => false
  | c :: cs => existsSelected c || existsSelectedList cs
end

mutual
/-- Number of Items in the tree (catalogue entries offered). -/
def itemCount : MenuNode → Nat
  | MenuNode.Item _ _ _ => 1
  | MenuNode.Menu _ cs => itemCountList cs
def itemCountList : List MenuNode → Nat
  | [] => 0
  | c :: cs => itemCount c + itemCountList cs
end

/-- Debug rendering of the distribution, as Rust `format!("{:?}", os)`. -/
def osDebug : OsDistribution → String
  | OsDistribution.Rhel => "Rhel"
  | OsDistribution.Centos => "Centos"
  | OsDistribution.Unknown => "Unknown"

namespace scripts_gnome

/-- Script payload of scripts_gnome::minimal_install (src/scripts.rs). -/
def minimal_install : String :=
  "sudo dnf install -y gdm gnome-browser-connector\nsudo systemctl set-default graphical.target"

/-- Script payload of scripts_gnome::full_install. -/
def full_install : String :=
  "sudo dnf groupinstall -y 'Workstation'\nsudo systemctl set-default graphical.target"

end scripts_gnome

namespace scripts_sway

/-- Script payload of scripts_sway::compile_from_source. -/
def compile_from_source : String :=
  "# This is a complex process and requires many dependencies.\n# This script is a placeholder for the required commands.\nsudo dnf install -y ninja-build meson gcc wayland-devel wayland-protocols-devel libinput-devel libxcb-devel libxkbcommon-devel pixman-devel"

/-- Script payload of scripts_sway::install_wofi. -/
def install_wofi : String := "sudo dnf install -y wofi"

end scripts_sway

namespace scripts_repos

/-- Script payload of scripts_repos::add_ceph. -/
def add_ceph : String := "sudo dnf install -y ceph-common"

/-- Script payload of scripts_repos::add_crb. -/
def add_crb : String :=
  "sudo dnf config-manager --set-enabled codeready-builder-for-rhel-10-rhui-rpms || sudo dnf config-manager --set-enabled crb"

/-- Script payload of scripts_repos::add_epel. -/
def add_epel : String := "sudo dnf install -y epel-release"

/-- Script payload of scripts_repos::add_flathub. -/
def add_flathub : String :=
  "sudo flatpak remote-add --if-not-exists flathub https://flathub.org/repo/flathub.flatpakrepo"

/-- Script payload of scripts_repos::add_rt. -/
def add_rt : String := "sudo dnf config-manager --set-enabled rt"

/-- Script payload of scripts_repos::add_ha. -/
def add_ha : String := "sudo dnf config-manager --set-enabled ha"

end scripts_repos

namespace scripts_virt

/-- Script payload of scripts_virt::install_kvm. -/
def install_kvm : String :=
  "sudo dnf install -y @virtualization\nsudo systemctl enable --now libvirtd"

/-- Script payload of scripts_virt::install_cockpit_minimal. -/
def install_cockpit_minimal : String :=
  "sudo dnf install -y cockpit\nsudo systemctl enable --now cockpit.socket\nsudo firewall-cmd --add-service=cockpit --permanent\nsudo firewall-cmd --reload"

/-- Script payload of scripts_virt::install_cockpit_full. -/
def install_cockpit_full : String :=
  "sudo dnf install -y cockpit cockpit-machines\nsudo systemctl enable --now cockpit.socket\nsudo firewall-cmd --add-service=cockpit --permanent\nsudo firewall-cmd --reload"

end scripts_virt

namespace scripts_net

/-- Script payload of scripts_net::install_vpn_ovpn. -/
def install_vpn_ovpn : String :=
  "sudo dnf install -y NetworkManager-openvpn NetworkManager-openvpn-gnome"

/-- Script payload of scripts_net::install_vpn_l2tp. -/
def install_vpn_l2tp : String :=
  "sudo dnf install -y NetworkManager-l2tp NetworkManager-l2tp-gnome"

/-- Script payload of scripts_net::install_vpn_sswan. -/
def install_vpn_sswan : String :=
  "sudo dnf install -y strongswan strongswan-charon-nm"

/-- Script payload of scripts_net::install_vpn_lswan. -/
def install_vpn_lswan : String :=
  "sudo dnf install -y NetworkManager-libreswan NetworkManager-libreswan-gnome"

/-- Script payload of scripts_net::install_vpn_pptp. -/
def install_vpn_pptp : String :=
  "sudo dnf install -y NetworkManager-pptp NetworkManager-pptp-gnome"

/-- Script payload of scripts_net::install_vpn_oconn. -/
def install_vpn_oconn : String :=
  "sudo dnf install -y NetworkManager-openconnect NetworkManager-openconnect-gnome"

end scripts_net

/-- The static catalogue, build_menu_tree from src/scripts.rs: only the
display name of the CRB item depends on the detected distribution. -/
def build_menu_tree (os : OsDistribution) : MenuNode :=
  MenuNode.Menu "Main Menu" [
    MenuNode.Menu "Graphical Environments" [
      MenuNode.Menu "Gnome DE" [
        MenuNode.Menu "Environment Installation" [
          MenuNode.Item "Minimal Installation" scripts_gnome.minimal_install false,
          MenuNode.Item "Full Installation" scripts_gnome.full_install false],
        MenuNode.Menu "Customization" [
          MenuNode.Menu "Extensions" [
            MenuNode.Menu "Tiling WM" [],
            MenuNode.Menu "Top Bar" [],
            MenuNode.Menu "Desktop Functions" [],
            MenuNode.Menu "Search" []]]],
      MenuNode.Menu "Sway WM" [
        MenuNode.Menu "Environment Installation" [
          MenuNode.Item "Compile from Source" scripts_sway.compile_from_source false],
        MenuNode.Menu "Customization" [
          MenuNode.Item "Wofi" scripts_sway.install_wofi false]]],
    MenuNode.Menu "Repositories" [
      MenuNode.Menu "Add Repositories" [
        MenuNode.Item "CEPH" scripts_repos.add_ceph false,
        MenuNode.Item (if os = OsDistribution.Rhel then "CodeReady Builder" else "CRB")
          scripts_repos.add_crb false,
        MenuNode.Item "EPEL" scripts_repos.add_epel false,
        MenuNode.Item "Flathub" scripts_repos.add_flathub false,
        MenuNode.Item "Real-Time (RT)" scripts_repos.add_rt false,
        MenuNode.Item "High Availability (HA)" scripts_repos.add_ha false]],
    MenuNode.Menu "Virtualization" [
      MenuNode.Item "KVM (Core & Tools)" scripts_virt.install_kvm false,
      MenuNode.Menu "Cockpit" [
        MenuNode.Item "Minimal Install" scripts_virt.install_cockpit_minimal false,
        MenuNode.Item "Full Install (with Machines)" scripts_virt.install_cockpit_full false]],
    MenuNode.Menu "Networking" [
      MenuNode.Menu "NetworkManager" [
        MenuNode.Item "OpenVPN" scripts_net.install_vpn_ovpn false,
        MenuNode.Item "OpenConnect" scripts_net.install_vpn_oconn false,
        MenuNode.Item "L2TP" scripts_net.install_vpn_l2tp false,
        MenuNode.Item "LibreSwan" scripts_net.install_vpn_lswan false,
        MenuNode.Item "StrongSwan" scripts_net.install_vpn_sswan false,
        MenuNode.Item "PPTP" scripts_net.install_vpn_pptp false],
      MenuNode.Menu "KVM (libvirt networks)" []],
    MenuNode.Menu "Hardening" []]

/-- App from src/main.rs.  `nav_path` holds the path of every node on the
Rust `nav_path` vector; its first element is the root path `[]`. -/
structure App where
  state : AppState
  menu_tree : MenuNode
  nav_path : List (List Nat)
  selected_index : Nat
  os_distro : OsDistribution
  reboot_requested : Bool
  filename_input : String
  save_status_message : Option String

/-- App::new from src/main.rs, with the detected distribution (an external
collaborator, detect_os) passed in as a value. -/
def App.new (os : OsDistribution) : App :=
  { state := AppState.Running
  , menu_tree := build_menu_tree os
  , nav_path := [[]]
  , selected_index := 0
  , os_distro := os
  , reboot_requested := false
  , filename_input := ""
  , save_status_message := none }

/-- App::generate_commands from src/main.rs, string push by string push. -/
def generate_commands (a : App) (reboot : Bool) : String :=
  let t1 := "#!/bin/bash\n"
  let t2 := t1 ++ ("# Commands generated for " ++ osDebug a.os_distro ++ " by RHEL/CentOS TUI Manager\n")
  let t3 := t2 ++ "# Save this script and run it with sudo: sudo bash ./script.sh\n\n"
  let scripts := get_selected_scripts a.menu_tree []
  let t4 :=
    if scripts.isEmpty then t3 ++ "\n# No options selected.\n"
    else scripts.foldl (fun acc s => (acc ++ s).push '\n') t3
  if reboot then t4 ++ "\necho 'Installation complete. Rebooting now...'\n" ++ "sudo reboot\n"
  else t4

/-- Result of handling one key event in run_app: keep looping with a new
state, or leave the loop with an ActionAfterExit. -/
inductive StepResult where
  | Continue (a : App)
  | Exit (act : ActionAfterExit)

/-- One key event of run_app (src/main.rs lines 252-327).  The clamp of
`selected_index` at the top of the Running arm is part of the handler;
the `fs::write` of the Saving Enter arm is replaced by the `w` oracle. -/
def handleKey (w : WriteOutcome) (a : App) (k : KeyCode) : StepResult :=
  match a.state with
  | AppState.Running =>
    let visible := visible_nodes a.menu_tree a.nav_path
    let a1 :=
      if visible.isEmpty then { a with selected_index := 0 }
      else { a with selected_index := min a.selected_index (visible.length - 1) }
    match k with
    | KeyCode.Char 'q' => StepResult.Exit ActionAfterExit.Quit
    | KeyCode.Char 'i' =>
      StepResult.Continue { a1 with state := AppState.Finished, reboot_requested := false }
    | KeyCode.Char 'r' =>
      StepResult.Continue { a1 with state := AppState.Finished, reboot_requested := true }
    | KeyCode.Down =>
      if visible.isEmpty then StepResult.Continue a1
      else StepResult.Continue { a1 with selected_index := (a1.selected_index + 1) % visible.length }
    | KeyCode.Up =>
      if visible.isEmpty then StepResult.Continue a1
      else StepResult.Continue
        { a1 with selected_index := (a1.selected_index + visible.length - 1) % visible.length }
    | KeyCode.Right | KeyCode.Enter =>
      match visible[a1.selected_index]? with
      | some p =>
        match getNode a1.menu_tree p with
        | some (MenuNode.Menu _ _) =>
          StepResult.Continue { a1 with nav_path := a1.nav_path ++ [p], selected_index := 0 }
        | some (MenuNode.Item _ _ _) =>
          StepResult.Continue { a1 with menu_tree := toggleAt a1.menu_tree p }
        | none => StepResult.Continue a1
      | none => StepResult.Continue a1
    | KeyCode.Left | KeyCode.Backspace =>
      if a1.nav_path.length > 1 then
        StepResult.Continue { a1 with nav_path := a1.nav_path.dropLast, selected_index := 0 }
      else StepResult.Continue a1
    | _ => StepResult.Continue a1
  | AppState.Finished =>
    match k with
    | KeyCode.Char 'q' => StepResult.Exit ActionAfterExit.Quit
    | KeyCode.Char 's' => StepResult.Continue { a with state := AppState.Saving }
    | KeyCode.Char 'r' =>
      StepResult.Exit (ActionAfterExit.RunScript (generate_commands a a.reboot_requested))
    | KeyCode.Esc | KeyCode.Backspace => StepResult.Continue { a with state := AppState.Running }
    | _ => StepResult.Continue a
  | AppState.Saving =>
    match k with
    | KeyCode.Char c => StepResult.Continue { a with filename_input := a.filename_input.push c }
    | KeyCode.Backspace =>
      StepResult.Continue { a with filename_input := a.filename_input.dropRight 1 }
    | KeyCode.Esc =>
      StepResult.Continue
        { a with state := AppState.Finished, filename_input := "", save_status_message := none }
    | KeyCode.Enter =>
      let msg :=
        match w with
        | WriteOutcome.Ok => "Saved to " ++ a.filename_input
        | WriteOutcome.Err e => "Error: " ++ e
      StepResult.Continue
        { a with save_status_message := some msg
               , state := AppState.Finished
               , filename_input := "" }
    | _ => StepResult.Continue a

/-- State mutation done by the ui function while drawing (src/main.rs):
draw_main_ui re-clamps `selected_index` against the rendered list (same
length as the visible view), and draw_finished_screen drops the status
message once the filename buffer is empty. -/
def renderMutate (a : App) : App :=
  match a.state with
  | AppState.Running =>
    let visible := visible_nodes a.menu_tree a.nav_path
    if visible.isEmpty then { a with selected_index := 0 }
    else { a with selected_index := min a.selected_index (visible.length - 1) }
  | _ =>
    match a.save_status_message with
    | some _ => if a.filename_input.isEmpty then { a with save_status_message := none } else a
    | none => a

/-- One full iteration of the run_app loop as observed at the next event
read: handle the key, then redraw (which may mutate the state). -/
def loopStep (w : WriteOutcome) (a : App) (k : KeyCode) : StepResult :=
  match handleKey w a k with
  | StepResult.Continue b => StepResult.Continue (renderMutate b)
  | r => r

/-- Application state after a key that keeps the loop running (the state
is unchanged when the key exits the loop). -/
def stepApp (w : WriteOutcome) (a : App) (k : KeyCode) : App :=
  match handleKey w a k with
  | StepResult.Continue b => b
  | StepResult.Exit _ => a

/-- Application state after a full loop iteration. -/
def loopStepApp (w : WriteOutcome) (a : App) (k : KeyCode) : App :=
  match loopStep w a k with
  | StepResult.Continue b => b
  | StepResult.Exit _ => a

/-- Folding a whole key sequence through the handler. -/
def applyKeys (w : WriteOutcome) (a : App) (ks : List KeyCode) : App :=
  ks.foldl (stepApp w) a

/-- Session outcome of a step, if it ends the session. -/
def exitAction : StepResult → Option ActionAfterExit
  | StepResult.Continue _ => none
  | StepResult.Exit act => some act

/-- Length of the current visible view. -/
def viewLen (a : App) : Nat := (visible_nodes a.menu_tree a.nav_path).length

/-- Modelled from the spec (§4.2 `visible_view`): one extra level of eager
expansion at the root, as depth-tagged nodes. -/
def eagerRootView (cs : List MenuNode) : List (MenuNode × Nat) :=
  match cs with
  | [] => []
  | c :: rest =>
    (c, 0) ::
      ((match c with
        | MenuNode.Menu _ sub => sub.map (fun s => (s, 1))
        | MenuNode.Item _ _ _ => []) ++ eagerRootView rest)

/-- Fixed script header (§4.3 step 1), for the given detected OS. -/
def scriptHeader (os : OsDistribution) : String :=
  "#!/bin/bash\n" ++ ("# Commands generated for " ++ osDebug os ++ " by RHEL/CentOS TUI Manager\n")
    ++ "# Save this script and run it with sudo: sudo bash ./script.sh\n\n"

/-- Fixed body used when no option is selected (§4.3 step 3). -/
def noOptionsComment : String := "\n# No options selected.\n"

/-- Fixed completion message and reboot command (§4.3 step 4). -/
def rebootSuffix : String := "\necho 'Installation complete. Rebooting now...'\n" ++ "sudo reboot\n"

/-- Looking up an empty remainder path in a child list is list indexing. -/
theorem getNodeList_nil : ∀ (cs : List MenuNode) (i : Nat), getNodeList cs i [] = cs[i]? := by
  intro cs
  induction cs with
  | nil => intro i; cases i <;> simp [getNodeList]
  | cons c cs ih =>
    intro i
    cases i with
    | zero => simp [getNodeList, getNode]
    | succ j => simp [getNodeList, ih]

/-- Path lookup splits over path concatenation. -/
theorem getNode_append : ∀ (p : List Nat) (t : MenuNode) (q : List Nat),
    getNode t (p ++ q) = (getNode t p).bind (fun n => getNode n q) := by
  intro p
  induction p with
  | nil => intro t q; simp [getNode]
  | cons i p ih =>
    intro t q
    cases t with
    | Item n s sel => simp [getNode]
    | Menu n cs =>
      simp only [List.cons_append, getNode]
      induction cs generalizing i with
      | nil => cases i <;> simp [getNodeList]
      | cons c cs ihcs =>
        cases i with
        | zero => simp [getNodeList, ih]
        | succ j => simp [getNodeList, ihcs]

/-- Toggling a node twice along the same path restores the tree. -/
theorem toggleAt_toggleAt : ∀ (p : List Nat) (t : MenuNode), toggleAt (toggleAt t p) p = t := by
  intro p
  induction p with
  | nil => intro t; cases t <;> simp [toggleAt]
  | cons i p ih =>
    intro t
    cases t with
    | Item n s sel => simp [toggleAt]
    | Menu n cs =>
      simp only [toggleAt, MenuNode.Menu.injEq, true_and]
      induction cs generalizing i with
      | nil => cases i <;> simp [toggleAtList]
      | cons c cs ihcs =>
        cases i with
        | zero => simp [toggleAtList, ih]
        | succ j => simp [toggleAtList, ihcs]

/-- Toggling never changes the number of children of a menu. -/
theorem toggleAtList_length : ∀ (cs : List MenuNode) (i : Nat) (rest : List Nat),
    (toggleAtList cs i rest).length = cs.length := by
  intro cs
  induction cs with
  | nil => intro i rest; simp [toggleAtList]
  | cons c cs ih =>
    intro i rest
    cases i <;> simp [toggleAtList, ih]

/-- Lookup at a prefix of the toggled path sees the subtree toggled at the
remainder of the path. -/
theorem getNode_toggleAt_append : ∀ (q : List Nat) (t : MenuNode) (r : List Nat),
    getNode (toggleAt t (q ++ r)) q = (getNode t q).map (fun n => toggleAt n r) := by
  intro q
  induction q with
  | nil => intro t r; simp [getNode]
  | cons i q ih =>
    intro t r
    cases t with
    | Item n s sel => simp [toggleAt, getNode]
    | Menu n cs =>
      simp only [List.cons_append, toggleAt, getNode]
      induction cs generalizing i with
      | nil => cases i <;> simp [toggleAtList, getNodeList]
      | cons c cs ihcs =>
        cases i with
        | zero => simp [toggleAtList, getNodeList, ih]
        | succ j => simp [toggleAtList, getNodeList, ihcs]

/-- Each selected payload followed by a newline, in list order (§4.3
step 2, the body of the script). -/
def joinLines : List String → String
  | [] => ""
  | s :: rest => s ++ "\n" ++ joinLines rest

/-- Pushing a newline character is appending the one-character string. -/
theorem string_push_newline (s : String) : s.push '\n' = s ++ "\n" := by
  cases s
  rfl

/-- The body loop of generate_commands appends the joined payload lines. -/
theorem foldl_append_newline : ∀ (l : List String) (init : String),
    l.foldl (fun acc s => (acc ++ s).push '\n') init = init ++ joinLines l := by
  intro l
  induction l with
  | nil => intro init; simp [joinLines]
  | cons s l ih =>
    intro init
    rw [List.foldl_cons, ih, string_push_newline, joinLines]
    simp [String.append_assoc]

mutual
/-- Rust's accumulator-passing collection equals the pre-order traversal. -/
theorem get_selected_scripts_eq : ∀ (t : MenuNode) (acc : List String),
    get_selected_scripts t acc = acc ++ visit_selected_leaves t
  | MenuNode.Item n s sel, acc => by
    cases sel <;> simp [get_selected_scripts, visit_selected_leaves]
  | MenuNode.Menu n cs, acc => by
    simp [get_selected_scripts, visit_selected_leaves, get_selected_scripts_list_eq cs acc]
theorem get_selected_scripts_list_eq : ∀ (cs : List MenuNode) (acc : List String),
    get_selected_scripts_list cs acc = acc ++ visit_selected_leaves_list cs
  | [], acc => by simp [get_selected_scripts_list, visit_selected_leaves_list]
  | c :: cs, acc => by
    simp [get_selected_scripts_list, visit_selected_leaves_list,
      get_selected_scripts_eq c acc,
      get_selected_scripts_list_eq cs (acc ++ visit_selected_leaves c)]
end

mutual
/-- The traversal yields nothing exactly when no Item is selected. -/
theorem visit_selected_leaves_eq_nil : ∀ (t : MenuNode),
    visit_selected_leaves t = [] ↔ existsSelected t = false
  | MenuNode.Item n s sel => by
    cases sel <;> simp [visit_selected_leaves, existsSelected]
  | MenuNode.Menu n cs => by
    simp [visit_selected_leaves, existsSelected, visit_selected_leaves_list_eq_nil cs]
theorem visit_selected_leaves_list_eq_nil : ∀ (cs : List MenuNode),
    visit_selected_leaves_list cs = [] ↔ existsSelectedList cs = false
  | [] => by simp [visit_selected_leaves_list, existsSelectedList]
  | c :: cs => by
    simp [visit_selected_leaves_list, existsSelectedList,
      visit_selected_leaves_eq_nil c, visit_selected_leaves_list_eq_nil cs]
end

/-- Characterization of generate_commands: fixed header, then either the
no-options comment or the pre-order selected payloads each followed by a
newline, then the optional reboot suffix. -/
theorem generate_commands_eq (a : App) (reboot : Bool) :
    generate_commands a reboot =
      scriptHeader a.os_distro
        ++ (if existsSelected a.menu_tree then joinLines (visit_selected_leaves a.menu_tree)
            else noOptionsComment)
        ++ (if reboot then rebootSuffix else "") := by
  have hs : get_selected_scripts a.menu_tree [] = visit_selected_leaves a.menu_tree := by
    simp [get_selected_scripts_eq]
  cases h : existsSelected a.menu_tree with
  | false =>
    have hnil : visit_selected_leaves a.menu_tree = [] :=
      (visit_selected_leaves_eq_nil a.menu_tree).mpr h
    cases reboot <;>
      simp [generate_commands, hs, hnil, scriptHeader, noOptionsComment, rebootSuffix,
        String.append_assoc]
  | true =>
    have hne : visit_selected_leaves a.menu_tree ≠ [] := by
      intro hnil
      rw [(visit_selected_leaves_eq_nil a.menu_tree).mp hnil] at h
      exact Bool.false_ne_true h
    cases reboot <;>
      simp [generate_commands, hs, List.isEmpty_iff, hne, foldl_append_newline,
        scriptHeader, noOptionsComment, rebootSuffix, String.append_assoc]

/-- Root-view flattening only looks at the shape of the child list, which
toggling preserves. -/
theorem rootFlatten_toggleAtList : ∀ (cs : List MenuNode) (i : Nat) (rest : List Nat)
    (base : List Nat) (k : Nat),
    rootFlatten base (toggleAtList cs i rest) k = rootFlatten base cs k := by
  intro cs
  induction cs with
  | nil => intro i rest base k; simp [toggleAtList]
  | cons c cs ih =>
    intro i rest base k
    cases i with
    | zero =>
      cases c with
      | Item n s sel => cases rest <;> simp [toggleAtList, toggleAt, rootFlatten]
      | Menu m sub =>
        cases rest with
        | nil => simp [toggleAtList, toggleAt]
        | cons j r2 =>
          simp [toggleAtList, toggleAt, rootFlatten, toggleAtList_length]
    | succ j =>
      simp only [toggleAtList, rootFlatten]
      rw [ih]

/-- Toggling a node reached from the currently open menu does not change
the visible view (the view depends only on the shape of the tree). -/
theorem visible_nodes_toggleAt (t : MenuNode) (nav : List (List Nat)) (r : List Nat) :
    visible_nodes (toggleAt t (nav.getLastD [] ++ r)) nav = visible_nodes t nav := by
  have h := getNode_toggleAt_append (nav.getLastD []) t r
  unfold visible_nodes
  rw [h]
  cases hg : getNode t (nav.getLastD []) with
  | none => simp
  | some n =>
    cases n with
    | Item nm s sel => cases r <;> simp [toggleAt]
    | Menu nm cs =>
      cases r with
      | nil => simp [toggleAt]
      | cons i rest =>
        simp [toggleAt, rootFlatten_toggleAtList, toggleAtList_length]

/-- Every path in the root flattening extends the base path. -/
theorem mem_rootFlatten : ∀ (cs : List MenuNode) (k : Nat) (base q : List Nat),
    q ∈ rootFlatten base cs k → ∃ r, q = base ++ r := by
  intro cs
  induction cs with
  | nil => intro k base q h; simp [rootFlatten] at h
  | cons c cs ih =>
    intro k base q h
    simp only [rootFlatten, List.mem_cons, List.mem_append] at h
    rcases h with h | h | h
    · exact ⟨[k], h⟩
    · cases c with
      | Item n s sel => simp at h
      | Menu m sub =>
        simp only [List.mem_map, List.mem_range] at h
        obtain ⟨j, _, rfl⟩ := h
        exact ⟨[k, j], rfl⟩
    · exact ih _ _ _ h

/-- Every visible path extends the path of the currently open menu. -/
theorem mem_visible_nodes (t : MenuNode) (nav : List (List Nat)) (q : List Nat)
    (h : q ∈ visible_nodes t nav) : ∃ r, q = nav.getLastD [] ++ r := by
  unfold visible_nodes at h
  by_cases hnav : nav.length = 1
  · rw [if_pos hnav] at h
    cases hg : getNode t (nav.getLastD []) with
    | none => rw [hg] at h; simp at h
    | some n =>
      rw [hg] at h
      cases n with
      | Item nm s sel => simp at h
      | Menu nm cs => exact mem_rootFlatten cs 0 _ q h
  · rw [if_neg hnav] at h
    cases hg : getNode t (nav.getLastD []) with
    | none => rw [hg] at h; simp at h
    | some n =>
      rw [hg] at h
      cases n with
      | Item nm s sel => simp at h
      | Menu nm cs =>
        simp only [childIndexPaths, List.mem_map, List.mem_range] at h
        obtain ⟨i, _, rfl⟩ := h
        exact ⟨[i], rfl⟩

/-- Indexing a list over the full range recovers the list. -/
theorem filterMap_range_getElem {α : Type} : ∀ (l : List α),
    (List.range l.length).filterMap (fun i => l[i]?) = l := by
  intro l
  induction l with
  | nil => simp
  | cons c l ih =>
    rw [List.length_cons, List.range_succ_eq_map, List.filterMap_cons]
    simp only [List.getElem?_cons_zero, List.filterMap_map, Function.comp_def,
      List.getElem?_cons_succ]
    rw [ih]

/-- Child lookup as list indexing composed with lookup in the child. -/
theorem getNodeList_eq_bind : ∀ (cs : List MenuNode) (j : Nat) (q : List Nat),
    getNodeList cs j q = (cs[j]?).bind (fun c => getNode c q) := by
  intro cs
  induction cs with
  | nil => intro j q; cases j <;> simp [getNodeList]
  | cons c cs ih =>
    intro j q
    cases j with
    | zero => simp [getNodeList]
    | succ j => simp [getNodeList, ih]

/-- Resolving the submenu view paths recovers the menu's children. -/
theorem filterMap_childIndexPaths (t : MenuNode) (p : List Nat) (nm : String)
    (cs : List MenuNode) (hg : getNode t p = some (MenuNode.Menu nm cs)) :
    (childIndexPaths p cs.length).filterMap (fun q => getNode t q) = cs := by
  unfold childIndexPaths
  rw [List.filterMap_map]
  have hi : ∀ i : Nat, getNode t (p ++ [i]) = cs[i]? := by
    intro i
    rw [getNode_append, hg]
    simp [getNode, getNodeList_eq_bind]
  simp only [Function.comp_def, hi]
  exact filterMap_range_getElem cs

/-- Resolving the root-view paths yields each child followed by its own
children when it is a menu: the eager one-level expansion. -/
theorem filterMap_rootFlatten : ∀ (cs : List MenuNode) (t : MenuNode) (base : List Nat) (k : Nat),
    (∀ (j : Nat) (q : List Nat),
        getNode t (base ++ (k + j) :: q) = (cs[j]?).bind (fun c => getNode c q)) →
    (rootFlatten base cs k).filterMap (fun p => getNode t p) = (eagerRootView cs).map Prod.fst := by
  intro cs
  induction cs with
  | nil => intro t base k H; simp [rootFlatten, eagerRootView]
  | cons c cs ih =>
    intro t base k H
    have hc : getNode t (base ++ [k]) = some c := by simpa [getNode] using H 0 []
    simp only [rootFlatten, eagerRootView, List.filterMap_cons, List.map_cons, hc,
      List.map_append, List.filterMap_append]
    congr 1
    congr 1
    · cases c with
      | Item n s sel => simp
      | Menu m sub =>
        have hsub : ∀ j : Nat, getNode t (base ++ [k, j]) = sub[j]? := by
          intro j
          have h0 := H 0 [j]
          simp only [Nat.add_zero, List.getElem?_cons_zero, Option.some_bind] at h0
          rw [h0]
          simp [getNode, getNodeList_eq_bind]
        rw [List.filterMap_map]
        simp only [Function.comp_def, hsub, List.map_map]
        simpa using filterMap_range_getElem sub
    · apply ih
      intro j q
      have h1 := H (j + 1) q
      have h2 : k + (j + 1) = k + 1 + j := by omega
      rw [h2] at h1
      simpa using h1

/-- Continuing steps carry the new state into stepApp. -/
theorem stepApp_of_continue (w : WriteOutcome) (a b : App) (k : KeyCode)
    (h : handleKey w a k = StepResult.Continue b) : stepApp w a k = b := by
  rw [stepApp, h]

/-- Quit key in the Browsing state exits with Quit. -/
theorem handleKey_running_q (w : WriteOutcome) (a : App) (h : a.state = AppState.Running) :
    handleKey w a (KeyCode.Char 'q') = StepResult.Exit ActionAfterExit.Quit := by
  obtain ⟨st, mt, np, si, od, rr, fi, sm⟩ := a
  change st = AppState.Running at h
  subst h
  rfl

/-- Quit key in the Reviewing state exits with Quit. -/
theorem handleKey_finished_q (w : WriteOutcome) (a : App) (h : a.state = AppState.Finished) :
    handleKey w a (KeyCode.Char 'q') = StepResult.Exit ActionAfterExit.Quit := by
  obtain ⟨st, mt, np, si, od, rr, fi, sm⟩ := a
  change st = AppState.Finished at h
  subst h
  rfl

/-- Down key on a nonempty view (with the index in range, so the clamp is
the identity) advances the index by one modulo the view length. -/
theorem handleKey_down (w : WriteOutcome) (a : App) (hrun : a.state = AppState.Running)
    (hlt : a.selected_index < viewLen a) :
    handleKey w a KeyCode.Down =
      StepResult.Continue { a with selected_index := (a.selected_index + 1) % viewLen a } := by
  have hN : 0 < viewLen a := by omega
  obtain ⟨st, mt, np, si, od, rr, fi, sm⟩ := a
  change st = AppState.Running at hrun
  subst hrun
  rw [viewLen] at hlt hN
  simp only [] at hlt hN
  have hne : (visible_nodes mt np).isEmpty = false := by
    cases hv : visible_nodes mt np with
    | nil => rw [hv] at hN; simp at hN
    | cons x xs => rfl
  have hmin : min si ((visible_nodes mt np).length - 1) = si := by omega
  unfold handleKey
  simp only [hne, Bool.false_eq_true, if_false, hmin, viewLen]

/-- Up key on a nonempty view (index in range) retreats the index by one
modulo the view length. -/
theorem handleKey_up (w : WriteOutcome) (a : App) (hrun : a.state = AppState.Running)
    (hlt : a.selected_index < viewLen a) :
    handleKey w a KeyCode.Up =
      StepResult.Continue
        { a with selected_index := (a.selected_index + viewLen a - 1) % viewLen a } := by
  have hN : 0 < viewLen a := by omega
  obtain ⟨st, mt, np, si, od, rr, fi, sm⟩ := a
  change st = AppState.Running at hrun
  subst hrun
  rw [viewLen] at hlt hN
  simp only [] at hlt hN
  have hne : (visible_nodes mt np).isEmpty = false := by
    cases hv : visible_nodes mt np with
    | nil => rw [hv] at hN; simp at hN
    | cons x xs => rfl
  have hmin : min si ((visible_nodes mt np).length - 1) = si := by omega
  unfold handleKey
  simp only [hne, Bool.false_eq_true, if_false, hmin, viewLen]

/-- Down key on an empty view only clamps the index to zero. -/
theorem handleKey_down_empty (w : WriteOutcome) (a : App) (hrun : a.state = AppState.Running)
    (h0 : viewLen a = 0) :
    handleKey w a KeyCode.Down = StepResult.Continue { a with selected_index := 0 } := by
  obtain ⟨st, mt, np, si, od, rr, fi, sm⟩ := a
  change st = AppState.Running at hrun
  subst hrun
  rw [viewLen] at h0
  simp only [] at h0
  have hv : visible_nodes mt np = [] := List.length_eq_zero.mp h0
  unfold handleKey
  simp only [hv, List.isEmpty_nil, if_true]

/-- Up key on an empty view only clamps the index to zero. -/
theorem handleKey_up_empty (w : WriteOutcome) (a : App) (hrun : a.state = AppState.Running)
    (h0 : viewLen a = 0) :
    handleKey w a KeyCode.Up = StepResult.Continue { a with selected_index := 0 } := by
  obtain ⟨st, mt, np, si, od, rr, fi, sm⟩ := a
  change st = AppState.Running at hrun
  subst hrun
  rw [viewLen] at h0
  simp only [] at h0
  have hv : visible_nodes mt np = [] := List.length_eq_zero.mp h0
  unfold handleKey
  simp only [hv, List.isEmpty_nil, if_true]

/-- Enter on a visible Item toggles exactly that item. -/
theorem handleKey_enter_item (w : WriteOutcome) (a : App) (p : List Nat)
    (n s : String) (sel : Bool) (hrun : a.state = AppState.Running)
    (hp : (visible_nodes a.menu_tree a.nav_path)[a.selected_index]? = some p)
    (hg : getNode a.menu_tree p = some (MenuNode.Item n s sel)) :
    handleKey w a KeyCode.Enter =
      StepResult.Continue { a with menu_tree := toggleAt a.menu_tree p } := by
  have hlt : a.selected_index < (visible_nodes a.menu_tree a.nav_path).length :=
    (List.getElem?_eq_some.mp hp).1
  obtain ⟨st, mt, np, si, od, rr, fi, sm⟩ := a
  change st = AppState.Running at hrun
  subst hrun
  simp only [] at hlt hp hg
  have hN : 0 < (visible_nodes mt np).length := by omega
  have hne : (visible_nodes mt np).isEmpty = false := by
    cases hv : visible_nodes mt np with
    | nil => rw [hv] at hN; simp at hN
    | cons x xs => rfl
  have hmin : min si ((visible_nodes mt np).length - 1) = si := by omega
  unfold handleKey
  simp only [hne, Bool.false_eq_true, if_false, hmin, hp, hg]

/-- Save key in the Reviewing state switches to Saving and nothing else. -/
theorem handleKey_finished_s (w : WriteOutcome) (a : App) (h : a.state = AppState.Finished) :
    handleKey w a (KeyCode.Char 's') = StepResult.Continue { a with state := AppState.Saving } := by
  obtain ⟨st, mt, np, si, od, rr, fi, sm⟩ := a
  change st = AppState.Finished at h
  subst h
  rfl

/-- Move down at the level of application states. -/
theorem stepApp_down (w : WriteOutcome) (a : App) (hrun : a.state = AppState.Running)
    (hlt : a.selected_index < viewLen a) :
    stepApp w a KeyCode.Down = { a with selected_index := (a.selected_index + 1) % viewLen a } :=
  stepApp_of_continue w a _ _ (handleKey_down w a hrun hlt)

/-- Move up at the level of application states. -/
theorem stepApp_up (w : WriteOutcome) (a : App) (hrun : a.state = AppState.Running)
    (hlt : a.selected_index < viewLen a) :
    stepApp w a KeyCode.Up =
      { a with selected_index := (a.selected_index + viewLen a - 1) % viewLen a } :=
  stepApp_of_continue w a _ _ (handleKey_up w a hrun hlt)

/-- A move keeps the session browsing the same view with an in-range
index: the invariant preserved by every move key. -/
theorem stepApp_move_invariant (w : WriteOutcome) (a : App) (k : KeyCode)
    (hrun : a.state = AppState.Running) (hlt : a.selected_index < viewLen a)
    (hk : k = KeyCode.Down ∨ k = KeyCode.Up) :
    (stepApp w a k).state = AppState.Running
    ∧ viewLen (stepApp w a k) = viewLen a
    ∧ (stepApp w a k).selected_index < viewLen a := by
  have hN : 0 < viewLen a := by omega
  rcases hk with rfl | rfl
  · rw [stepApp_down w a hrun hlt]
    refine ⟨hrun, ?_, ?_⟩
    · simp [viewLen]
    · simp only []
      exact Nat.mod_lt _ hN
  · rw [stepApp_up w a hrun hlt]
    refine ⟨hrun, ?_, ?_⟩
    · simp [viewLen]
    · simp only []
      exact Nat.mod_lt _ hN

/-- Any sequence of moves keeps the index inside the view. -/
theorem applyKeys_moves_lt (w : WriteOutcome) : ∀ (ks : List KeyCode) (a : App),
    a.state = AppState.Running → a.selected_index < viewLen a →
    (∀ k ∈ ks, k = KeyCode.Down ∨ k = KeyCode.Up) →
    (applyKeys w a ks).state = AppState.Running
    ∧ viewLen (applyKeys w a ks) = viewLen a
    ∧ (applyKeys w a ks).selected_index < viewLen a := by
  intro ks
  induction ks with
  | nil => intro a hrun hlt _; exact ⟨hrun, rfl, hlt⟩
  | cons k ks ih =>
    intro a hrun hlt hks
    have hk := hks k (List.mem_cons_self k ks)
    obtain ⟨h1, h2, h3⟩ := stepApp_move_invariant w a k hrun hlt hk
    have hrest : ∀ k2 ∈ ks, k2 = KeyCode.Down ∨ k2 = KeyCode.Up := by
      intro k2 hk2
      exact hks k2 (List.mem_cons_of_mem k hk2)
    have happ : applyKeys w a (k :: ks) = applyKeys w (stepApp w a k) ks := rfl
    rw [happ]
    obtain ⟨g1, g2, g3⟩ := ih (stepApp w a k) h1 (by omega) hrest
    exact ⟨g1, by omega, by omega⟩

/-- C1: at a navigation path of length 1 the visible view lists every
immediate child of the open menu followed, when that child is itself a
menu, by that child's own immediate children (one extra level only); at a
longer navigation path the view is exactly the immediate children of the
path's terminal node. -/
theorem visible_view_rule :
    (∀ (t : MenuNode) (p : List Nat) (nm : String) (cs : List MenuNode),
        getNode t p = some (MenuNode.Menu nm cs) →
        viewNodes t [p] = (eagerRootView cs).map Prod.fst)
    ∧ (∀ (t : MenuNode) (nav : List (List Nat)) (nm : String) (cs : List MenuNode),
        1 < nav.length →
        getNode t (nav.getLastD []) = some (MenuNode.Menu nm cs) →
        viewNodes t nav = cs) := by
  constructor
  · intro t p nm cs hg
    have hlast : ([p] : List (List Nat)).getLastD [] = p := rfl
    unfold viewNodes visible_nodes
    rw [hlast, if_pos (show ([p] : List (List Nat)).length = 1 from rfl), hg]
    show (rootFlatten p cs 0).filterMap (fun q => getNode t q) = _
    apply filterMap_rootFlatten
    intro j q
    rw [Nat.zero_add, getNode_append, hg]
    simp [getNode, getNodeList_eq_bind]
  · intro t nav nm cs hlen hg
    unfold viewNodes visible_nodes
    rw [if_neg (by omega), hg]
    exact filterMap_childIndexPaths t (nav.getLastD []) nm cs hg

/-- Leaf x of the worked example of §8. -/
def exItemX : MenuNode := MenuNode.Item "x" "sx" false

/-- Leaf y of the worked example of §8. -/
def exItemY : MenuNode := MenuNode.Item "y" "sy" false

/-- Group A of the worked example of §8. -/
def exGroupA : MenuNode := MenuNode.Menu "A" [exItemX, exItemY]

/-- Leaf B of the worked example of §8. -/
def exItemB : MenuNode := MenuNode.Item "B" "sb" false

/-- Catalogue Root containing group A and item B, the worked example of §8. -/
def exRoot : MenuNode := MenuNode.Menu "Root" [exGroupA, exItemB]

/-- A browsing session at the root of the example catalogue. -/
def exApp : App :=
  { state := AppState.Running
  , menu_tree := exRoot
  , nav_path := [[]]
  , selected_index := 0
  , os_distro := OsDistribution.Unknown
  , reboot_requested := false
  , filename_input := ""
  , save_status_message := none }

/-- Witness for C1 on the concrete example: the root view is exactly
A, x, y, B in that order, and the view inside A is exactly x, y. -/
theorem visible_view_rule_witness :
    viewNodes exRoot [[]] = [exGroupA, exItemX, exItemY, exItemB]
    ∧ viewNodes exRoot [[], [0]] = [exItemX, exItemY] := by
  constructor
  · exact (visible_view_rule.1 exRoot [] "Root" [exGroupA, exItemB] rfl).trans rfl
  · exact visible_view_rule.2 exRoot [[], [0]] "A" [exItemX, exItemY] (by decide) rfl

/-- C2: the synthesized script is the fixed header for the detected OS,
then each selected leaf's payload followed by a newline in depth-first
pre-order catalogue order with no reordering or deduplication, or the
fixed no-options comment when no leaf is selected, then the fixed
completion message and reboot command exactly when reboot is requested. -/
theorem generate_commands_structure (a : App) (reboot : Bool) :
    generate_commands a reboot =
      scriptHeader a.os_distro
        ++ (if existsSelected a.menu_tree then joinLines (visit_selected_leaves a.menu_tree)
            else noOptionsComment)
        ++ (if reboot then rebootSuffix else "") :=
  generate_commands_eq a reboot

/-- C4: on a view of length at least one the index wraps from the last
row to 0 moving down and from 0 to the last row moving up, any sequence
of moves keeps the index inside the view, and on an empty view a move
only clamps the index to 0. -/
theorem move_wraps (w : WriteOutcome) (a : App) (hrun : a.state = AppState.Running) :
    (1 ≤ viewLen a → a.selected_index = viewLen a - 1 →
        (stepApp w a KeyCode.Down).selected_index = 0)
    ∧ (1 ≤ viewLen a → a.selected_index = 0 →
        (stepApp w a KeyCode.Up).selected_index = viewLen a - 1)
    ∧ (a.selected_index < viewLen a →
        ∀ ks : List KeyCode, (∀ k ∈ ks, k = KeyCode.Down ∨ k = KeyCode.Up) →
        (applyKeys w a ks).selected_index < viewLen a)
    ∧ (viewLen a = 0 →
        stepApp w a KeyCode.Down = { a with selected_index := 0 }
        ∧ stepApp w a KeyCode.Up = { a with selected_index := 0 }) := by
  refine ⟨?_, ?_, ?_, ?_⟩
  · intro hN hidx
    have hlt : a.selected_index < viewLen a := by omega
    rw [stepApp_down w a hrun hlt]
    simp only []
    rw [hidx]
    have h1 : viewLen a - 1 + 1 = viewLen a := by omega
    rw [h1, Nat.mod_self]
  · intro hN hidx
    have hlt : a.selected_index < viewLen a := by omega
    rw [stepApp_up w a hrun hlt]
    simp only []
    rw [hidx]
    have h1 : 0 + viewLen a - 1 = viewLen a - 1 := by omega
    rw [h1, Nat.mod_eq_of_lt (by omega)]
  · intro hlt ks hks
    exact (applyKeys_moves_lt w ks a hrun hlt hks).2.2
  · intro h0
    exact ⟨stepApp_of_continue w a _ _ (handleKey_down_empty w a hrun h0),
      stepApp_of_continue w a _ _ (handleKey_up_empty w a hrun h0)⟩

/-- A copy of the example session with the last visible row selected. -/
def exApp3 : App := { exApp with selected_index := 3 }

/-- A session inside item B of the example (an empty visible view). -/
def exAppEmpty : App := { exApp with nav_path := [[], [1]] }

/-- Witness for C4 on the example: wrapping at both edges of the
four-row root view, boundedness over a move sequence, and the empty view
leaving the index at 0. -/
theorem move_wraps_witness :
    (stepApp WriteOutcome.Ok exApp3 KeyCode.Down).selected_index = 0
    ∧ (stepApp WriteOutcome.Ok exApp KeyCode.Up).selected_index = 3
    ∧ (applyKeys WriteOutcome.Ok exApp
        [KeyCode.Down, KeyCode.Up, KeyCode.Down]).selected_index < 4
    ∧ stepApp WriteOutcome.Ok exAppEmpty KeyCode.Down = { exAppEmpty with selected_index := 0 } := by
  refine ⟨?_, ?_, ?_, ?_⟩
  · exact (move_wraps WriteOutcome.Ok exApp3 rfl).1 (by decide) (by decide)
  · exact ((move_wraps WriteOutcome.Ok exApp rfl).2.1 (by decide) rfl).trans (by decide)
  · exact (by decide : viewLen exApp = 4) ▸
      (move_wraps WriteOutcome.Ok exApp rfl).2.2.1 (by decide) _ (by decide)
  · exact ((move_wraps WriteOutcome.Ok exAppEmpty rfl).2.2.2 (by decide)).1

/-- C5: when the selected visible row is an Item, activate toggles exactly
that item's selected flag, leaves the navigation path and the index
unchanged, and a second activation restores the original state. -/
theorem activate_item (w : WriteOutcome) (a : App) (p : List Nat) (n s : String) (sel : Bool)
    (hrun : a.state = AppState.Running)
    (hp : (visible_nodes a.menu_tree a.nav_path)[a.selected_index]? = some p)
    (hg : getNode a.menu_tree p = some (MenuNode.Item n s sel)) :
    handleKey w a KeyCode.Enter =
      StepResult.Continue { a with menu_tree := toggleAt a.menu_tree p }
    ∧ getNode (toggleAt a.menu_tree p) p = some (MenuNode.Item n s (!sel))
    ∧ stepApp w (stepApp w a KeyCode.Enter) KeyCode.Enter = a := by
  have h1 := handleKey_enter_item w a p n s sel hrun hp hg
  have hflip : getNode (toggleAt a.menu_tree p) p = some (MenuNode.Item n s (!sel)) := by
    have h2 := getNode_toggleAt_append p a.menu_tree []
    rw [List.append_nil] at h2
    rw [h2, hg]
    rfl
  refine ⟨h1, hflip, ?_⟩
  have hs1 : stepApp w a KeyCode.Enter = { a with menu_tree := toggleAt a.menu_tree p } :=
    stepApp_of_continue w a _ _ h1
  have hmem : p ∈ visible_nodes a.menu_tree a.nav_path := List.getElem?_mem hp
  obtain ⟨r, hr⟩ := mem_visible_nodes a.menu_tree a.nav_path p hmem
  have hvis : visible_nodes (toggleAt a.menu_tree p) a.nav_path
      = visible_nodes a.menu_tree a.nav_path := by
    rw [hr]
    exact visible_nodes_toggleAt a.menu_tree a.nav_path r
  have hp2 : (visible_nodes (toggleAt a.menu_tree p) a.nav_path)[a.selected_index]? = some p := by
    rw [hvis]
    exact hp
  have h3 := handleKey_enter_item w { a with menu_tree := toggleAt a.menu_tree p } p n s (!sel)
    hrun hp2 hflip
  have hs2 := stepApp_of_continue w { a with menu_tree := toggleAt a.menu_tree p } _ _ h3
  rw [hs1, hs2]
  show ({ a with menu_tree := toggleAt (toggleAt a.menu_tree p) p } : App) = a
  rw [toggleAt_toggleAt]

/-- A copy of the example session with the row of item x selected. -/
def exApp1 : App := { exApp with selected_index := 1 }

/-- Witness for C5: toggling item x of the example twice restores the
original session state. -/
theorem activate_item_witness :
    stepApp WriteOutcome.Ok (stepApp WriteOutcome.Ok exApp1 KeyCode.Enter) KeyCode.Enter
      = exApp1 :=
  (activate_item WriteOutcome.Ok exApp1 [0, 0] "x" "sx" false rfl rfl rfl).2.2

/-- Counterexample to C3: in the Saving state (reached here from the
start by the install key then the save key) the quit key does not end the
session — it is consumed as filename input and the loop continues. -/
theorem quit_in_saving_counterexample :
    (loopStepApp WriteOutcome.Ok
        (loopStepApp WriteOutcome.Ok (App.new OsDistribution.Unknown) (KeyCode.Char 'i'))
        (KeyCode.Char 's')).state = AppState.Saving
    ∧ exitAction (loopStep WriteOutcome.Ok
        (loopStepApp WriteOutcome.Ok
          (loopStepApp WriteOutcome.Ok (App.new OsDistribution.Unknown) (KeyCode.Char 'i'))
          (KeyCode.Char 's'))
        (KeyCode.Char 'q')) = none
    ∧ (loopStepApp WriteOutcome.Ok
        (loopStepApp WriteOutcome.Ok
          (loopStepApp WriteOutcome.Ok (App.new OsDistribution.Unknown) (KeyCode.Char 'i'))
          (KeyCode.Char 's'))
        (KeyCode.Char 'q')).filename_input = "q" := by
  refine ⟨rfl, rfl, rfl⟩

/-- C3 as amended: the quit key ends the session with outcome Quit from
the Browsing and Reviewing states; in the Saving state it is instead
appended to the filename buffer. -/
theorem quit_ends_session (w : WriteOutcome) (a : App)
    (h : a.state = AppState.Running ∨ a.state = AppState.Finished) :
    loopStep w a (KeyCode.Char 'q') = StepResult.Exit ActionAfterExit.Quit := by
  rcases h with h | h
  · rw [loopStep, handleKey_running_q w a h]
  · rw [loopStep, handleKey_finished_q w a h]

/-- Witness for the amended C3 at the freshly started session. -/
theorem quit_ends_session_witness :
    loopStep WriteOutcome.Ok (App.new OsDistribution.Unknown) (KeyCode.Char 'q')
      = StepResult.Exit ActionAfterExit.Quit :=
  quit_ends_session WriteOutcome.Ok (App.new OsDistribution.Unknown) (Or.inl rfl)

/-- C6: synthesis is a pure function of the menu tree (the selection
snapshot) and the detected OS together with the reboot flag, and toggling
any leaf twice returns the output to its prior value. -/
theorem synthesize_pure :
    (∀ (a b : App) (r : Bool), a.menu_tree = b.menu_tree → a.os_distro = b.os_distro →
        generate_commands a r = generate_commands b r)
    ∧ (∀ (a : App) (p : List Nat) (r : Bool),
        generate_commands { a with menu_tree := toggleAt (toggleAt a.menu_tree p) p } r
          = generate_commands a r) := by
  constructor
  · intro a b r h1 h2
    unfold generate_commands
    rw [h1, h2]
  · intro a p r
    unfold generate_commands
    simp only []
    rw [toggleAt_toggleAt]

/-- Witness for C6: two example sessions differing only in the cursor
produce the same script, and toggling item x twice leaves it unchanged. -/
theorem synthesize_pure_witness :
    generate_commands exApp false = generate_commands { exApp with selected_index := 2 } false
    ∧ generate_commands
        { exApp with menu_tree := toggleAt (toggleAt exApp.menu_tree [0, 0]) [0, 0] } false
      = generate_commands exApp false :=
  ⟨synthesize_pure.1 exApp { exApp with selected_index := 2 } false rfl rfl,
    synthesize_pure.2 exApp [0, 0] false⟩

/-- C7: the save key in the Reviewing state (where the filename buffer is
empty between events) moves the session to Saving with the filename
buffer empty and no status message once the screen has been redrawn. -/
theorem save_enters_saving (w : WriteOutcome) (a : App)
    (hrev : a.state = AppState.Finished) (hfi : a.filename_input = "") :
    loopStep w a (KeyCode.Char 's') =
      StepResult.Continue { a with state := AppState.Saving, save_status_message := none } := by
  obtain ⟨st, mt, np, si, od, rr, fi, sm⟩ := a
  change st = AppState.Finished at hrev
  change fi = "" at hfi
  subst hrev
  subst hfi
  cases sm with
  | none => rfl
  | some msg => rfl

/-- The example session parked on the Reviewing screen. -/
def exAppFin : App := { exApp with state := AppState.Finished }

/-- Witness for C7 at the example Reviewing session. -/
theorem save_enters_saving_witness :
    loopStep WriteOutcome.Ok exAppFin (KeyCode.Char 's') =
      StepResult.Continue { exAppFin with state := AppState.Saving, save_status_message := none } :=
  save_enters_saving WriteOutcome.Ok exAppFin rfl rfl

/-- C8: a failed write on confirm surfaces the error as the status
message, returns the session to Reviewing with the filename buffer
cleared, and keeps the menu tree, navigation path and cursor unchanged;
the session continues running. -/
theorem failed_save_recovers (a : App) (m : String) (hsav : a.state = AppState.Saving) :
    handleKey (WriteOutcome.Err m) a KeyCode.Enter =
      StepResult.Continue
        { a with state := AppState.Finished
               , filename_input := ""
               , save_status_message := some ("Error: " ++ m) } := by
  obtain ⟨st, mt, np, si, od, rr, fi, sm⟩ := a
  change st = AppState.Saving at hsav
  subst hsav
  rfl

/-- The example session inside the save dialog. -/
def exAppSav : App := { exApp with state := AppState.Saving }

/-- Witness for C8: a denied write at the example save dialog. -/
theorem failed_save_recovers_witness :
    handleKey (WriteOutcome.Err "denied") exAppSav KeyCode.Enter =
      StepResult.Continue
        { exAppSav with state := AppState.Finished
                      , filename_input := ""
                      , save_status_message := some "Error: denied" } :=
  failed_save_recovers exAppSav "denied" rfl

/-- Counterexample to C9: the Unknown distribution is offered exactly as
many catalogue items (19) as Centos and as Rhel — nothing is narrowed. -/
theorem unknown_not_narrowed_counterexample :
    itemCount (build_menu_tree OsDistribution.Unknown) = 19
    ∧ itemCount (build_menu_tree OsDistribution.Centos) = 19
    ∧ itemCount (build_menu_tree OsDistribution.Rhel) = 19 :=
  ⟨rfl, rfl, rfl⟩

/-- C9 as amended: with the Unknown distribution the tool stays usable —
the session starts Browsing over a nonempty root view — but the catalogue
is not narrowed: the Unknown tree is identical to the Centos tree and has
exactly as many items as the Rhel tree (only the CRB item's display name
depends on the distribution). -/
theorem unknown_catalogue_not_narrowed :
    build_menu_tree OsDistribution.Unknown = build_menu_tree OsDistribution.Centos
    ∧ itemCount (build_menu_tree OsDistribution.Unknown)
        = itemCount (build_menu_tree OsDistribution.Rhel)
    ∧ (App.new OsDistribution.Unknown).state = AppState.Running
    ∧ 0 < viewLen (App.new OsDistribution.Unknown) :=
  ⟨rfl, rfl, rfl, by decide⟩

/-- C10: with no leaf selected, synthesis with the reboot flag still
appends the completion message and reboot command after the no-options
comment — the suffix is independent of the selection. -/
theorem no_selection_reboot (a : App) (h : existsSelected a.menu_tree = false) :
    generate_commands a true = scriptHeader a.os_distro ++ noOptionsComment ++ rebootSuffix := by
  rw [generate_commands_eq a true, h]
  simp

/-- Witness for C10 at the example session, whose tree has no selection. -/
theorem no_selection_reboot_witness :
    generate_commands exApp true
      = scriptHeader OsDistribution.Unknown ++ noOptionsComment ++ rebootSuffix :=
  no_selection_reboot exApp rfl
